import Mathlib

/-!
Verification of the OpenAPI-Spec-Simplifier compaction engine.

The source program (src/openapi-simplifier.tsx) is a JavaScript/React module.
Its core engine is embedded shallowly below:

- JSON/YAML value trees are modelled by the mutual inductive JValue/JArr/JObj
  (a JS object is an ordered association list whose keys are unique, which is
  what JSON.parse and js-yaml produce; JS numbers are modelled by Int, which
  covers every number the verified claims exercise).
- JS truthiness, property access (including the TypeError thrown when reading
  a property of null/undefined), optional chaining, template-literal string
  coercion and Array.prototype.join are modelled by the js* helpers.
- Fallible source code (property reads on possibly-null values, calling
  Array methods on non-arrays) is modelled in the Except String monad; the
  exact wording of the JS TypeError messages is abbreviated.
- The two external text parsers (JSON.parse and the lazily loaded js-yaml)
  are modelled as parameters of type String -> Except String JValue; js-yaml
  results of undefined are outside the shapes the claims exercise.
-/

mutual

inductive JValue where
  | null : JValue
  | bool (b : Bool) : JValue
  | num (n : Int) : JValue
  | str (s : String) : JValue
  | arr (xs : JArr) : JValue
  | obj (fs : JObj) : JValue

inductive JArr where
  | nil : JArr
  | cons (v : JValue) (rest : JArr) : JArr

inductive JObj where
  | nil : JObj
  | cons (k : String) (v : JValue) (rest : JObj) : JObj

end

/-- Conversion of a JS array to a Lean list of its elements. -/
def JArr.toList : JArr → List JValue
  | .nil => []
  | .cons v rest => v :: JArr.toList rest

/-- Conversion of a JS object to the Lean list of its (key, value) entries,
in property-insertion order (the order Object.entries iterates). -/
def JObj.toList : JObj → List (String × JValue)
  | .nil => []
  | .cons k v rest => (k, v) :: JObj.toList rest

/-- Own-property lookup on a JS object (keys are unique, so first match). -/
def JObj.lookup : JObj → String → Option JValue
  | .nil, _ => none
  | .cons k v rest, key => if k == key then some v else JObj.lookup rest key

/-- Number of keys of a JS object, as Object.keys(o).length computes it. -/
def JObj.length : JObj → Nat
  | .nil => 0
  | .cons _ _ rest => 1 + JObj.length rest

/-- Keys of a JS object in insertion order, as Object.keys returns them. -/
def JObj.keys : JObj → List String
  | .nil => []
  | .cons k _ rest => k :: JObj.keys rest

def JArr.length : JArr → Nat
  | .nil => 0
  | .cons _ rest => 1 + JArr.length rest

def JArr.get : JArr → Nat → Option JValue
  | .nil, _ => none
  | .cons v _, 0 => some v
  | .cons _ rest, n + 1 => JArr.get rest n

def listToJArr : List JValue → JArr
  | [] => .nil
  | v :: rest => .cons v (listToJArr rest)

def listToJObj : List (String × JValue) → JObj
  | [] => .nil
  | (k, v) :: rest => .cons k v (listToJObj rest)

/-- JS truthiness of a value: null, false, 0 and the empty string are falsy,
every object and array is truthy. -/
def jsTruthy : JValue → Bool
  | .null => false
  | .bool b => b
  | .num n => n != 0
  | .str s => s != ""
  | .arr _ => true
  | .obj _ => true

/-- JS truthiness of a possibly-undefined value (none models undefined). -/
def jsTruthyO : Option JValue → Bool
  | none => false
  | some v => jsTruthy v

/-- Decimal digit test used by the canonical-array-index parser. -/
def isDigitCh (c : Char) : Bool := '0' ≤ c && c ≤ '9'

def digitsVal : List Char → Nat → Nat
  | [], acc => acc
  | c :: rest, acc => digitsVal rest (acc * 10 + (c.toNat - '0'.toNat))

/-- Canonical array-index reading of a property key, as JS applies to
indexed access on arrays and strings: a non-empty all-digit string with no
leading zero (other than the string 0 itself). -/
def jsIndexOfKey (k : String) : Option Nat :=
  match k.data with
  | [] => none
  | c :: rest =>
      if (c :: rest).all isDigitCh && (c != '0' || rest.isEmpty) then
        some (digitsVal (c :: rest) 0)
      else none

/-- Property read on a non-null, non-undefined base value: object own
properties, array and string indexed elements; properties of other
primitives are undefined. -/
def jsField : JValue → String → Option JValue
  | .obj fs, k => fs.lookup k
  | .arr xs, k => (jsIndexOfKey k).bind xs.get
  | .str s, k => (jsIndexOfKey k).bind (fun i => (s.data.get? i).map (fun c => .str (String.mk [c])))
  | _, _ => none

/-- Plain (non-optional) property access b.k in JS: throws a TypeError when
the base is null or undefined, otherwise reads the property. -/
def jsAccess : Option JValue → String → Except String (Option JValue)
  | none, k => .error ("Cannot read properties of undefined (reading " ++ k ++ ")")
  | some .null, k => .error ("Cannot read properties of null (reading " ++ k ++ ")")
  | some v, k => .ok (jsField v k)

/-- Optional-chained property access b?.k in JS: undefined when the base is
null or undefined, otherwise an ordinary property read. -/
def jsOptChain : Option JValue → String → Option JValue
  | none, _ => none
  | some .null, _ => none
  | some v, k => jsField v k

/-- Optional-chained index access b?.[0] in JS. -/
def jsOptIndex0 : Option JValue → Option JValue
  | none => none
  | some .null => none
  | some (.arr xs) => xs.get 0
  | some (.obj fs) => fs.lookup "0"
  | some (.str s) => (s.data.get? 0).map (fun c => .str (String.mk [c]))
  | some _ => none

/-- Keys enumerated by Object.keys: own keys of an object, index strings of
an array or string, nothing for other primitives. -/
def jsKeys : JValue → List String
  | .obj fs => fs.keys
  | .arr xs => (List.range xs.length).map toString
  | .str s => (List.range s.length).map toString
  | _ => []

/-- Entries enumerated by Object.entries on a non-null value. -/
def jsEntries : JValue → List (String × JValue)
  | .obj fs => fs.toList
  | .arr xs => xs.toList.enum.map (fun p => (toString p.1, p.2))
  | .str s => s.data.enum.map (fun p => (toString p.1, JValue.str (String.mk [p.2])))
  | _ => []

/-- Object.entries itself: throws a TypeError on null, otherwise enumerates. -/
def jsEntriesE : JValue → Except String (List (String × JValue))
  | .null => .error "Cannot convert undefined or null to object"
  | v => .ok (jsEntries v)

mutual

/-- String coercion of a value as a JS template literal performs it:
arrays join their elements with commas (null elements become empty),
objects print as the object tag. -/
def jsToString : JValue → String
  | .null => "null"
  | .bool true => "true"
  | .bool false => "false"
  | .num n => toString n
  | .str s => s
  | .arr xs => jsToStringArr xs
  | .obj _ => "[object Object]"

def jsToStringArr : JArr → String
  | .nil => ""
  | .cons .null .nil => ""
  | .cons v .nil => jsToString v
  | .cons .null rest => "," ++ jsToStringArr rest
  | .cons v rest => jsToString v ++ "," ++ jsToStringArr rest

end

/-- String coercion of a possibly-undefined value inside a template literal. -/
def jsTemplate : Option JValue → String
  | none => "undefined"
  | some v => jsToString v

/-- Element rendering of Array.prototype.join: null and undefined elements
render as the empty string. -/
def jsJoinElem : JValue → String
  | .null => ""
  | v => jsToString v

/-- Array.prototype.join with the given separator. -/
def jsJoin : JArr → String → String
  | .nil, _ => ""
  | .cons v .nil, _ => jsJoinElem v
  | .cons v rest, sep => jsJoinElem v ++ sep ++ jsJoin rest sep

/-- Whitespace class of the source regex and of String.prototype.trim,
restricted to the ASCII whitespace characters the claims exercise. -/
def isWs (c : Char) : Bool :=
  c == ' ' || c == '\t' || c == '\n' || c == '\r' || c == '\x0b' || c == '\x0c'

/-- Core of the global regex replacement of whitespace runs by single
spaces: the flag records whether the previous character was whitespace. -/
def collapseCore : Bool → List Char → List Char
  | _, [] => []
  | inWs, c :: rest =>
      if isWs c then
        if inWs then collapseCore true rest else ' ' :: collapseCore true rest
      else c :: collapseCore false rest

/-- Replacement of every maximal whitespace run by a single space, the
effect of the replace call in truncateDescription. -/
def collapseWs (s : String) : String := String.mk (collapseCore false s.data)

def trimList (l : List Char) : List Char :=
  ((l.dropWhile isWs).reverse.dropWhile isWs).reverse

/-- String.prototype.trim. -/
def jsTrim (s : String) : String := String.mk (trimList s.data)

def listStartsWith : List Char → List Char → Bool
  | _, [] => true
  | [], _ :: _ => false
  | a :: as, b :: bs => a == b && listStartsWith as bs

def replaceFirstList (rep : List Char) (pat : List Char) : List Char → List Char
  | [] => if pat.isEmpty then rep else []
  | c :: rest =>
      if listStartsWith (c :: rest) pat then rep ++ (c :: rest).drop pat.length
      else c :: replaceFirstList rep pat rest

/-- String.prototype.replace with a plain-string pattern: replaces the
first occurrence only. -/
def replaceFirst (s pat rep : String) : String :=
  String.mk (replaceFirstList rep.data pat.data s.data)

/-- Internal-schema reference root used throughout the source. -/
def schemaRefRoot : String := "#/components/schemas/"

/-- Model of the Number coercion applied to response-status keys, covering
optionally signed decimal integer literals surrounded by whitespace (the
shape every status-code key has); other numeric syntaxes of JS are outside
the shapes the claims exercise and coerce to none (NaN). -/
def jsNumber (s : String) : Option Int :=
  match trimList s.data with
  | [] => some 0
  | '-' :: rest => if rest.all isDigitCh && !rest.isEmpty then some (-(digitsVal rest 0 : Int)) else none
  | '+' :: rest => if rest.all isDigitCh && !rest.isEmpty then some (digitsVal rest 0 : Int) else none
  | l => if l.all isDigitCh then some (digitsVal l 0 : Int) else none

example : jsTrim "  a  b " = "a  b" := rfl
example : collapseWs " a \n\t b " = " a b " := rfl
example : replaceFirst "#/components/schemas/Pet" schemaRefRoot "" = "Pet" := rfl
example : jsNumber "200" = some 200 := rfl
example : jsNumber "2xx" = none := rfl
example : jsNumber "" = some 0 := rfl
example : jsField (.obj (.cons "a" (.num 1) .nil)) "a" = some (.num 1) := rfl
example : jsOptChain (some (.str "ab")) "0" = some (.str "a") := rfl

/-- Source function cleanSchemaRef (lines 52-55): falsy or non-string
references pass through unchanged, otherwise the first occurrence of the
internal-schema root is removed. -/
def cleanSchemaRef : JValue → JValue
  | .str s => if s == "" then .str s else .str (replaceFirst s schemaRefRoot "")
  | v => v

/-- Substring cleaned.substring(0, n) of the source, for the shapes used. -/
def jsSubstringTo (s : String) (n : Nat) : String := String.mk (s.data.take n)

/-- Source function truncateDescription (lines 142-146). The argument is the
possibly-undefined value handed to it; maxLength is 100 at every call site
(the source declares it as a defaulted parameter). Falsy or non-string input
returns undefined (none). -/
def truncateDescription (desc : Option JValue) (maxLength : Nat) : Option String :=
  match desc with
  | some (.str s) =>
      if s == "" then none
      else
        let cleaned := jsTrim (collapseWs s)
        some (if cleaned.length ≤ maxLength then cleaned else jsSubstringTo cleaned maxLength ++ "...")
  | _ => none

/-- Insertion into the reference Set of the collector: a JS Set keeps the
first insertion position and ignores duplicates. -/
def addUnique (acc : List String) (n : String) : List String :=
  if acc.contains n then acc else acc ++ [n]

/-- Source function addRef inside collectReferencedSchemas (lines 60-64):
adds the stripped name when the reference is a truthy string with the
internal-schema root as a prefix. -/
def collectorAddRef (r : JValue) (acc : List String) : List String :=
  match r with
  | .str s =>
      if s != "" && listStartsWith s.data schemaRefRoot.data then
        addUnique acc (replaceFirst s schemaRefRoot "")
      else acc
  | _ => acc

/-- Reference handling at one visited object: the walk reads obj.dollar-ref
and, when truthy, hands it to addRef (lines 69-71). -/
def maybeAddRef (fs : JObj) (acc : List String) : List String :=
  match fs.lookup "$ref" with
  | some r => if jsTruthy r then collectorAddRef r acc else acc
  | none => acc

mutual

/-- Source function walkObject (lines 66-80): primitives and null return,
an object first contributes its own reference then has its values visited,
an array has its elements visited as values. -/
def walkObject : JValue → List String → List String
  | .obj fs, acc => walkFields fs (maybeAddRef fs acc)
  | .arr xs, acc => walkElems xs acc
  | _, acc => acc

/-- Loop over Object.values of an object (lines 73-79): array values have
walkObject applied to each element by forEach, object values (including
null, which walkObject ignores) recurse, primitives are skipped. -/
def walkFields : JObj → List String → List String
  | .nil, acc => acc
  | .cons _ (.arr xs) rest, acc => walkFields rest (walkForEach xs acc)
  | .cons _ (.obj gs) rest, acc => walkFields rest (walkFields gs (maybeAddRef gs acc))
  | .cons _ _ rest, acc => walkFields rest acc

/-- Loop over Object.values of an array, whose values are its elements. -/
def walkElems : JArr → List String → List String
  | .nil, acc => acc
  | .cons (.arr xs) rest, acc => walkElems rest (walkForEach xs acc)
  | .cons (.obj gs) rest, acc => walkElems rest (walkFields gs (maybeAddRef gs acc))
  | .cons _ rest, acc => walkElems rest acc

/-- Element-wise forEach(walkObject) applied to an array value. -/
def walkForEach : JArr → List String → List String
  | .nil, acc => acc
  | .cons x rest, acc => walkForEach rest (walkObject x acc)

end

/-- Seed list of well-known schema names (line 88). -/
def seedSchemas : List String := ["Error", "Granularity", "AggregationFunction", "ResponseFormat"]

/-- References discovered by walking spec.paths when it is truthy
(lines 82-85). -/
def walkedRefs (spec : JValue) : List String :=
  match jsField spec "paths" with
  | some p => if jsTruthy p then walkObject p [] else []
  | none => []

/-- Truthiness of spec.components?.schemas?.[name], the seed-presence test
of line 90. -/
def seedPresent (spec : JValue) (n : String) : Bool :=
  jsTruthyO (jsOptChain (jsOptChain (jsField spec "components") "schemas") n)

/-- Core of collectReferencedSchemas (lines 57-96) on a non-null document:
walk the paths subtree, then add each seed name whose entry in
components.schemas is truthy. -/
def collectRefs (spec : JValue) : List String :=
  seedSchemas.foldl (fun a n => if seedPresent spec n then addUnique a n else a) (walkedRefs spec)

/-- Source function collectReferencedSchemas, including the TypeError a
null document would raise at its first property read. -/
def collectReferencedSchemas : JValue → Except String (List String)
  | .null => .error "Cannot read properties of null (reading paths)"
  | v => .ok (collectRefs v)

mutual

/-- Nesting depth of a value, used only to bound the recursion fuel of the
schema compactor. -/
def jdepth : JValue → Nat
  | .obj fs => 1 + jodepth fs
  | .arr xs => 1 + jadepth xs
  | _ => 0

def jadepth : JArr → Nat
  | .nil => 0
  | .cons v rest => max (jdepth v) (jadepth rest)

def jodepth : JObj → Nat
  | .nil => 0
  | .cons _ v rest => max (jdepth v) (jodepth rest)

end

/-- Source function simplifySchema (lines 98-140), written with explicit
recursion fuel so that it is structurally recursive; the wrapper below
supplies fuel exceeding the nesting depth, and every recursive call of the
source descends at least one nesting level, so the zero-fuel clause is
never reached. Null and primitive schemas pass through unchanged; an array
reaches the generic branch where every field read is undefined, producing
an empty object. Rule order and the field order of the built object follow
the source: bare type, type(format), then type, format, enum, required,
stripped dollar-ref, compacted properties (string results re-keyed as
"type name" mapped to true), compacted items. -/
def simplifySchemaGo : Nat → JValue → JValue
  | 0, schema => schema
  | fuel + 1, schema =>
    match schema with
    | .obj fs =>
        let ty := fs.lookup "type"
        if jsTruthyO ty && fs.length == 1 then ty.getD .null
        else
          let fm := fs.lookup "format"
          if jsTruthyO ty && jsTruthyO fm && fs.length == 2 then
            .str (jsToString (ty.getD .null) ++ "(" ++ jsToString (fm.getD .null) ++ ")")
          else
            let enm := fs.lookup "enum"
            let req := fs.lookup "required"
            let rf := fs.lookup "$ref"
            let props := fs.lookup "properties"
            let its := fs.lookup "items"
            .obj (listToJObj (
              (if jsTruthyO ty then [("type", ty.getD .null)] else []) ++
              (if jsTruthyO fm then [("format", fm.getD .null)] else []) ++
              (if jsTruthyO enm then [("enum", enm.getD .null)] else []) ++
              (if jsTruthyO req then [("required", req.getD .null)] else []) ++
              (if jsTruthyO rf then [("$ref", cleanSchemaRef (rf.getD .null))] else []) ++
              (if jsTruthyO props then
                [("properties", .obj (listToJObj ((jsEntries (props.getD .null)).map (fun kv =>
                  match simplifySchemaGo fuel kv.2 with
                  | .str t => (t ++ " " ++ kv.1, JValue.bool true)
                  | v => (kv.1, v)))))]
              else []) ++
              (if jsTruthyO its then [("items", simplifySchemaGo fuel (its.getD .null))] else [])))
    | .arr _ => .obj .nil
    | v => v

/-- Source function simplifySchema with sufficient fuel. -/
def simplifySchema (schema : JValue) : JValue :=
  simplifySchemaGo (jdepth schema + 1) schema

example : simplifySchema (.obj (.cons "type" (.str "string") .nil)) = .str "string" := rfl
example :
    simplifySchema (.obj (.cons "type" (.str "integer") (.cons "format" (.str "int64") .nil))) =
      .str "integer(int64)" := rfl
example :
    simplifySchema (.obj (.cons "$ref" (.str "#/components/schemas/Pet") .nil)) =
      .obj (.cons "$ref" (.str "Pet") .nil) := rfl
example :
    walkObject (.obj (.cons "a" (.obj (.cons "$ref" (.str "#/components/schemas/Pets") .nil)) .nil)) [] =
      ["Pets"] := rfl

/-- Compact endpoint descriptor built by the extractor loop of simplifySpec
(lines 172-224). Field order of the JS object is m, p, desc, pp, qp, req,
res, codes, with the optional ones present only when assigned. The req and
res fields hold whatever cleanSchemaRef returned (a string for string
references, the untouched value otherwise), hence Option JValue. -/
structure Endpoint where
  m : String
  p : String
  desc : Option String
  pp : Option (List String)
  qp : Option (List String)
  req : Option JValue
  res : Option JValue
  codes : List Int

instance : Inhabited Endpoint := ⟨⟨"", "", none, none, none, none, none, []⟩⟩

/-- Strict equality test v === lit of a possibly-undefined value against a
string literal. -/
def optIsStr : Option JValue → String → Bool
  | some (.str t), w => t == w
  | _, _ => false

/-- Strict equality test p.required === false. -/
def optIsFalse : Option JValue → Bool
  | some (.bool false) => true
  | _ => false

/-- Array.prototype.filter over parameters by their in field (lines
183-184); reading the in field of a null element throws. -/
def filterByIn (which : String) : List JValue → Except String (List JValue)
  | [] => .ok []
  | p :: rest => do
      let iv ← jsAccess (some p) "in"
      let tail ← filterByIn which rest
      pure (if optIsStr iv which then p :: tail else tail)

/-- Rendering of one path parameter (lines 187-191): name, colon, the type
from schema.type or a legacy top-level type or the literal unknown, with a
question mark when required is strictly false. -/
def renderPathParam (p : JValue) : Except String String := do
  let nameV ← jsAccess (some p) "name"
  let schemaV ← jsAccess (some p) "schema"
  let legacyTy ← jsAccess (some p) "type"
  let tyV := if jsTruthyO (jsOptChain schemaV "type") then jsOptChain schemaV "type"
             else if jsTruthyO legacyTy then legacyTy else some (.str "unknown")
  let base := jsTemplate nameV ++ ":" ++ jsTemplate tyV
  let reqV ← jsAccess (some p) "required"
  pure (if optIsFalse reqV then base ++ "?" else base)

/-- Rendering of one query parameter (lines 195-201): the path-parameter
rendering plus a parenthesised schema format and a bracketed enum joined
with vertical bars; join on a truthy non-array enum throws. -/
def renderQueryParam (p : JValue) : Except String String := do
  let nameV ← jsAccess (some p) "name"
  let schemaV ← jsAccess (some p) "schema"
  let legacyTy ← jsAccess (some p) "type"
  let tyV := if jsTruthyO (jsOptChain schemaV "type") then jsOptChain schemaV "type"
             else if jsTruthyO legacyTy then legacyTy else some (.str "unknown")
  let base := jsTemplate nameV ++ ":" ++ jsTemplate tyV
  let reqV ← jsAccess (some p) "required"
  let s1 := if optIsFalse reqV then base ++ "?" else base
  let fmtV := jsOptChain schemaV "format"
  let s2 := if jsTruthyO fmtV then s1 ++ "(" ++ jsTemplate fmtV ++ ")" else s1
  let enumV := jsOptChain schemaV "enum"
  if jsTruthyO enumV then
    match enumV.getD .null with
    | .arr xs => pure (s2 ++ "[" ++ jsJoin xs "|" ++ "]")
    | _ => .error "p.schema.enum.join is not a function"
  else pure s2

def mapParamsE (f : JValue → Except String String) : List JValue → Except String (List String)
  | [] => .ok []
  | p :: rest => do
      let s ← f p
      let tail ← mapParamsE f rest
      pure (s :: tail)

/-- Description field of the emitted descriptor (lines 177-179): summary
or-else description, truncated; an empty or undefined truncation result is
falsy, so the field is omitted. -/
def buildDesc (op : JValue) : Except String (Option String) := do
  let summary ← jsAccess (some op) "summary"
  let sd ← if jsTruthyO summary then pure summary else jsAccess (some op) "description"
  pure (match truncateDescription sd 100 with
        | some s => if s == "" then none else some s
        | none => none)

/-- Endpoint fields read from the operation after the description, in
source order (lines 181-222): parameters, request body, response
reference, status codes. -/
structure EndpointRest where
  pp : Option (List String)
  qp : Option (List String)
  req : Option JValue
  res : Option JValue
  codes : List Int

def buildEndpointRest (op : JValue) : Except String EndpointRest := do
  let params ← jsAccess (some op) "parameters"
  let ppqp ← if jsTruthyO params then
      match params.getD .null with
      | .arr xs => do
          let pathPs ← filterByIn "path" xs.toList
          let queryPs ← filterByIn "query" xs.toList
          let pp ← if pathPs.length != 0 then do
              let l ← mapParamsE renderPathParam pathPs
              pure (some l)
            else pure (none : Option (List String))
          let qp ← if queryPs.length != 0 then do
              let l ← mapParamsE renderQueryParam queryPs
              pure (some l)
            else pure (none : Option (List String))
          pure (pp, qp)
      | _ => .error "operation.parameters.filter is not a function"
    else pure ((none : Option (List String)), (none : Option (List String)))
  let rb ← jsAccess (some op) "requestBody"
  let reqF ← if jsTruthyO rb then do
      let content ← jsAccess rb "content"
      let rref := jsOptChain (jsOptChain content "application/json") "schema"
      let rr := jsOptChain rref "$ref"
      pure (if jsTruthyO rr then some (cleanSchemaRef (rr.getD .null)) else none)
    else pure (none : Option JValue)
  let responses ← jsAccess (some op) "responses"
  let r200 := jsOptChain responses "200"
  let okResp := if jsTruthyO r200 then r200 else jsOptChain responses "201"
  let rr2 := jsOptChain (jsOptChain (jsOptChain (jsOptChain okResp "content") "application/json") "schema") "$ref"
  let resF := if jsTruthyO rr2 then some (cleanSchemaRef (rr2.getD .null)) else none
  let codesSrc := if jsTruthyO responses then responses.getD .null else .obj .nil
  let codes := (jsKeys codesSrc).filterMap jsNumber
  pure ⟨ppqp.1, ppqp.2, reqF, resF, codes⟩

/-- String.prototype.toLowerCase over the characters the method keys use. -/
def jsToLower (s : String) : String := String.mk (s.data.map Char.toLower)

/-- One emitted endpoint (lines 172-224): the method is lowercased and the
path kept verbatim; the description fields are read from the operation
first, then the remaining fields, exactly as the source statements are
ordered. -/
def buildEndpoint (path method : String) (op : JValue) : Except String Endpoint := do
  let descF ← buildDesc op
  let r ← buildEndpointRest op
  pure ⟨jsToLower method, path, descF, r.pp, r.qp, r.req, r.res, r.codes⟩

/-- Recognized HTTP methods of the filter on line 170. -/
def httpMethods : List String := ["get", "post", "put", "patch", "delete", "head", "options"]

/-- Inner extractor loop over the entries of one path item (lines 169-225):
keys outside the recognized-method list are skipped by exact comparison. -/
def extractOps (path : String) : List (String × JValue) → Except String (List Endpoint)
  | [] => .ok []
  | (method, op) :: rest =>
      if httpMethods.contains method then do
        let e ← buildEndpoint path method op
        let es ← extractOps path rest
        pure (e :: es)
      else extractOps path rest

/-- Outer extractor loop over the entries of spec.paths (lines 168-226);
Object.entries of a null path item throws. -/
def extractPaths : List (String × JValue) → Except String (List Endpoint)
  | [] => .ok []
  | (path, item) :: rest => do
      let ents ← jsEntriesE item
      let es1 ← extractOps path ents
      let es2 ← extractPaths rest
      pure (es1 ++ es2)

/-- Compact document assembled by simplifySpec: host and sec when their
sources are truthy, the endpoint list (always present), and the restricted
schemas map when the guard of line 231 passes. -/
structure Simplified where
  host : Option JValue
  sec : Option (List String)
  endpoints : List Endpoint
  schemas : Option (List (String × JValue))

/-- Restricted schemas map of lines 232-237: for each collected name in
order, the entry of components.schemas is compacted when it is truthy and
skipped otherwise. -/
def buildSchemas (csv : JValue) : List String → List (String × JValue)
  | [] => []
  | n :: rest =>
      match jsField csv n with
      | some v => if jsTruthy v then (n, simplifySchema v) :: buildSchemas csv rest else buildSchemas csv rest
      | none => buildSchemas csv rest

/-- Body of simplifySpec (lines 148-241) on a non-null document, in source
order: host from servers[0].url falling back to the legacy host field, sec
from the keys of components.securitySchemes falling back to the legacy
securityDefinitions, endpoint extraction over a truthy paths, then
reference collection and the restricted schemas map when references were
found and components.schemas is truthy. -/
def simplifySpecCore (spec : JValue) : Except String Simplified := do
  let url := jsOptChain (jsOptIndex0 (jsField spec "servers")) "url"
  let host : Option JValue :=
    if jsTruthyO url then url
    else if jsTruthyO (jsField spec "host") then jsField spec "host"
    else none
  let secA := jsOptChain (jsField spec "components") "securitySchemes"
  let secB := jsField spec "securityDefinitions"
  let sec : Option (List String) :=
    if jsTruthyO secA || jsTruthyO secB then
      some (jsKeys ((if jsTruthyO secA then secA else secB).getD .null))
    else none
  let pathsV := jsField spec "paths"
  let endpoints ← if jsTruthyO pathsV then extractPaths (jsEntries (pathsV.getD .null)) else pure []
  let refs := collectRefs spec
  let cs := jsOptChain (jsField spec "components") "schemas"
  let schemas : Option (List (String × JValue)) :=
    if refs.length != 0 && jsTruthyO cs then some (buildSchemas (cs.getD .null) refs)
    else none
  pure ⟨host, sec, endpoints, schemas⟩

/-- Source function simplifySpec, including the TypeError a null document
raises at its first property read (line 152). -/
def simplifySpec : JValue → Except String Simplified
  | .null => .error "Cannot read properties of null (reading servers)"
  | v => simplifySpecCore v

/-- JSON string escaping of JSON.stringify for the characters the engine
can emit (quote, backslash and the common control characters; other
control characters are outside the shapes the claims exercise). -/
def jsonEscapeChar (c : Char) : String :=
  if c == '"' then "\\\""
  else if c == '\\' then "\\\\"
  else if c == '\n' then "\\n"
  else if c == '\r' then "\\r"
  else if c == '\t' then "\\t"
  else String.mk [c]

def jsonQuote (s : String) : String :=
  "\"" ++ String.join (s.data.map jsonEscapeChar) ++ "\""

mutual

/-- JSON.stringify with no indentation, as invoked on line 261. -/
def stringify : JValue → String
  | .null => "null"
  | .bool true => "true"
  | .bool false => "false"
  | .num n => toString n
  | .str s => jsonQuote s
  | .arr xs => "[" ++ stringifyArr xs ++ "]"
  | .obj fs => "\x7b" ++ stringifyObj fs ++ "\x7d"

def stringifyArr : JArr → String
  | .nil => ""
  | .cons v .nil => stringify v
  | .cons v rest => stringify v ++ "," ++ stringifyArr rest

def stringifyObj : JObj → String
  | .nil => ""
  | .cons k v .nil => jsonQuote k ++ ":" ++ stringify v
  | .cons k v rest => jsonQuote k ++ ":" ++ stringify v ++ "," ++ stringifyObj rest

end

/-- JS object an endpoint descriptor denotes, in assignment order. -/
def Endpoint.toJValue (e : Endpoint) : JValue :=
  .obj (listToJObj (
    [("m", .str e.m), ("p", .str e.p)] ++
    (match e.desc with | some d => [("desc", JValue.str d)] | none => []) ++
    (match e.pp with | some l => [("pp", JValue.arr (listToJArr (l.map .str)))] | none => []) ++
    (match e.qp with | some l => [("qp", JValue.arr (listToJArr (l.map .str)))] | none => []) ++
    (match e.req with | some v => [("req", v)] | none => []) ++
    (match e.res with | some v => [("res", v)] | none => []) ++
    [("codes", .arr (listToJArr (e.codes.map .num)))]))

/-- JS object the assembled compact document denotes, in assignment order:
host, sec, endpoints, schemas. -/
def Simplified.toJValue (s : Simplified) : JValue :=
  .obj (listToJObj (
    (match s.host with | some v => [("host", v)] | none => []) ++
    (match s.sec with | some l => [("sec", JValue.arr (listToJArr (l.map .str)))] | none => []) ++
    [("endpoints", .arr (listToJArr (s.endpoints.map Endpoint.toJValue)))] ++
    (match s.schemas with | some m => [("schemas", JValue.obj (listToJObj m))] | none => [])))

/-- Error taxonomy of parseSpec: the distinct parser-unavailable condition
of line 41 and the format failure of line 47. -/
inductive ParseError where
  | parserUnavailable : ParseError
  | formatError (msg : String) : ParseError

/-- Message carried by each parse error, as read by the catch on line 264. -/
def ParseError.message : ParseError → String
  | .parserUnavailable => "YAML parser not loaded yet"
  | .formatError m => m

/-- Source function parseSpec (lines 34-50), parameterised by the two
external parsers and the loaded state of the YAML parser: strict JSON
first; on failure, the parser-unavailable error when the YAML parser is
missing, otherwise the YAML result or a format error wrapping the YAML
message. -/
def parseSpec (jsonParse yamlLoad : String → Except String JValue)
    (yamlLoaded : Bool) (text : String) : Except ParseError JValue :=
  match jsonParse text with
  | .ok v => .ok v
  | .error _ =>
      if !yamlLoaded then .error .parserUnavailable
      else
        match yamlLoad text with
        | .ok v => .ok v
        | .error m => .error (.formatError ("Invalid JSON or YAML format: " ++ m))

/-- Output and error strings the surrounding shell displays. -/
structure UIState where
  output : String
  error : String

/-- Source function processSpec (lines 243-269) as a state transformer on
the displayed output and error: blank input clears both and returns; a
missing YAML parser replaces the error message and leaves the previous
output untouched; otherwise the input is parsed, simplified and serialized
into the output with the error cleared, and any thrown error clears the
output and reports a single message. -/
def processSpec (jsonParse yamlLoad : String → Except String JValue)
    (yamlLoaded : Bool) (input : String) (prev : UIState) : UIState :=
  if jsTrim input == "" then ⟨"", ""⟩
  else if !yamlLoaded then { prev with error := "YAML parser not loaded yet, please wait..." }
  else
    match parseSpec jsonParse yamlLoad yamlLoaded input with
    | .ok parsed =>
        match simplifySpec parsed with
        | .ok simplified => ⟨stringify simplified.toJValue, ""⟩
        | .error m => ⟨"", "Error processing spec: " ++ m⟩
    | .error e => ⟨"", "Error processing spec: " ++ e.message⟩

example :
    stringify (Simplified.toJValue ⟨none, none, [], none⟩) = "\x7b\"endpoints\":[]\x7d" := rfl

/-! Shared documents and observation helpers for the claim theorems. -/

def jobj (l : List (String × JValue)) : JValue := .obj (listToJObj l)

def jarr (l : List JValue) : JValue := .arr (listToJArr l)

/-- Keys of the schemas map of a compact document (empty when the field is
omitted). -/
def schemasKeys (s : Simplified) : List String :=
  match s.schemas with
  | some m => m.map Prod.fst
  | none => []

/-- Keys of the components.schemas mapping of a document, reached by the
optional chain the source uses (empty when the mapping is absent). -/
def componentsSchemaKeys (spec : JValue) : List String :=
  match jsOptChain (jsField spec "components") "schemas" with
  | some v => jsKeys v
  | none => []

/-- Scenario input of the specification, built as the value tree JSON.parse
returns for the quoted text. -/
def petstoreScenario : JValue := jobj [
  ("openapi", .str "3.0.0"),
  ("paths", jobj [("/pets", jobj [("get", jobj [
     ("summary", .str "List all pets"),
     ("parameters", jarr [jobj [
        ("name", .str "limit"), ("in", .str "query"), ("required", .bool false),
        ("schema", jobj [("type", .str "integer"), ("format", .str "int32")])]]),
     ("responses", jobj [("200", jobj [("content", jobj [("application/json", jobj [
        ("schema", jobj [("$ref", .str "#/components/schemas/Pets")])])])])])])])]),
  ("components", jobj [("schemas", jobj [
     ("Pets", jobj [("type", .str "array"), ("items", jobj [("$ref", .str "#/components/schemas/Pet")])]),
     ("Pet", jobj [("type", .str "object"), ("required", jarr [.str "id"]),
                   ("properties", jobj [("id", jobj [("type", .str "integer")])])])])])]

/-- Endpoint descriptor the scenario is specified to produce. -/
def petstoreEndpoint : Endpoint :=
  ⟨"get", "/pets", some "List all pets", none, some ["limit:integer?(int32)"], none,
   some (.str "Pets"), [200]⟩

/-- Full compact document the engine produces for the scenario input. -/
def petstoreExpected : Simplified :=
  ⟨none, none, [petstoreEndpoint],
   some [("Pets", jobj [("type", .str "array"), ("items", jobj [("$ref", .str "Pet")])])]⟩

/-- C4: on the scenario input of the spec, the pipeline emits exactly the
endpoint descriptor with method get, path /pets, description List all
pets, query parameter limit:integer?(int32), response reference Pets and
status code 200, and the output schemas map has an entry for Pets but none
for Pet. -/
theorem c4_petstore_scenario :
    simplifySpec petstoreScenario = .ok petstoreExpected ∧
    petstoreExpected.endpoints = [petstoreEndpoint] ∧
    schemasKeys petstoreExpected = ["Pets"] ∧
    "Pet" ∉ schemasKeys petstoreExpected :=
  ⟨rfl, rfl, rfl, by decide⟩

/-! Helper lemmas about the string model. -/

lemma length_mk (l : List Char) : (String.mk l).length = l.length := rfl

lemma strLength_data (s : String) : s.length = s.data.length := rfl

lemma str_append_mk (l : List Char) (t : String) :
    String.mk l ++ t = String.mk (l ++ t.data) := rfl

lemma truncateDescription_str (s : String) (hne : s ≠ "") :
    truncateDescription (some (.str s)) 100 =
      some (if (jsTrim (collapseWs s)).length ≤ 100 then jsTrim (collapseWs s)
            else jsSubstringTo (jsTrim (collapseWs s)) 100 ++ "...") := by
  simp [truncateDescription, hne]

/-- C7 counterexample: the empty-string description is falsy in JS, so
truncateDescription returns undefined for it instead of its (empty)
whitespace-collapsed form, refuting the claim at the input empty string. -/
theorem c7_truncation_counterexample :
    truncateDescription (some (.str "")) 100 = none ∧
    (jsTrim (collapseWs "")).length ≤ 100 ∧
    truncateDescription (some (.str "")) 100 ≠ some (jsTrim (collapseWs "")) :=
  ⟨rfl, by decide, by decide⟩

/-- C7 amended: for every non-empty string description, truncation returns
the whitespace-collapsed form unchanged when that form is at most 100
characters, returns its first 100 characters followed by three dots (a
103-character result) when it is longer, and never returns more than 103
characters. -/
theorem c7_truncation_amended (s : String) (hne : s ≠ "") :
    ((jsTrim (collapseWs s)).length ≤ 100 →
        truncateDescription (some (.str s)) 100 = some (jsTrim (collapseWs s))) ∧
    (100 < (jsTrim (collapseWs s)).length →
        truncateDescription (some (.str s)) 100 =
          some (jsSubstringTo (jsTrim (collapseWs s)) 100 ++ "...") ∧
        (jsSubstringTo (jsTrim (collapseWs s)) 100 ++ "...").length = 103) ∧
    (∀ r, truncateDescription (some (.str s)) 100 = some r → r.length ≤ 103) := by
  have hlen : (jsSubstringTo (jsTrim (collapseWs s)) 100 ++ "...").length =
      min 100 (jsTrim (collapseWs s)).length + 3 := by
    rw [jsSubstringTo, str_append_mk, length_mk, List.length_append, List.length_take,
      strLength_data]
    rfl
  refine ⟨fun h => ?_, fun h => ⟨?_, ?_⟩, fun r hr => ?_⟩
  · rw [truncateDescription_str s hne, if_pos h]
  · rw [truncateDescription_str s hne, if_neg (by omega)]
  · rw [hlen, strLength_data] at *
    omega
  · rw [truncateDescription_str s hne] at hr
    rcases Option.some.inj hr with rfl
    split
    · omega
    · rw [hlen]
      omega

/-- Non-whitespace 101-character description exercising the truncation. -/
def a101 : String := String.mk (List.replicate 101 'a')

/-- C7 witness: a 101-character description of the letter a produces the
first 100 characters plus three dots, 103 characters in total. -/
theorem c7_truncation_witness :
    truncateDescription (some (.str a101)) 100 =
      some (jsSubstringTo (jsTrim (collapseWs a101)) 100 ++ "...") ∧
    (jsSubstringTo (jsTrim (collapseWs a101)) 100 ++ "...").length = 103 :=
  (c7_truncation_amended a101 (by decide)).2.1 (by decide)

/-- C6 counterexample: an empty type string is falsy in JS, so the node
with the single field type set to the empty string compacts to an empty
object rather than to its type string, and a node whose format is the
empty string compacts to an object keeping only the type rather than to
the combined string; this refutes the claim over all plain-type nodes. -/
theorem c6_compaction_counterexample :
    simplifySchema (.obj (.cons "type" (.str "") .nil)) = .obj .nil ∧
    simplifySchema (.obj (.cons "type" (.str "") .nil)) ≠ .str "" ∧
    simplifySchema (.obj (.cons "type" (.str "integer") (.cons "format" (.str "") .nil))) =
      .obj (.cons "type" (.str "integer") .nil) ∧
    simplifySchema (.obj (.cons "type" (.str "integer") (.cons "format" (.str "") .nil))) ≠
      .str "integer()" :=
  ⟨rfl, fun h => JValue.noConfusion h, rfl, fun h => JValue.noConfusion h⟩

/-- C6 amended: for every non-empty type string t and non-empty format
string f, a node with exactly the field type t compacts to the string t, a
node with exactly the fields type t and format f compacts to the combined
parenthesised string, and re-applying compaction to either resulting
string returns it unchanged. -/
theorem c6_compaction_amended (t f : String) (ht : t ≠ "") (hf : f ≠ "") :
    simplifySchema (.obj (.cons "type" (.str t) .nil)) = .str t ∧
    simplifySchema (.str t) = .str t ∧
    simplifySchema (.obj (.cons "type" (.str t) (.cons "format" (.str f) .nil))) =
      .str (t ++ "(" ++ f ++ ")") ∧
    simplifySchema (.str (t ++ "(" ++ f ++ ")")) = .str (t ++ "(" ++ f ++ ")") := by
  refine ⟨?_, rfl, ?_, rfl⟩
  · simp [simplifySchema, jdepth, jodepth, simplifySchemaGo, JObj.lookup, JObj.length,
      jsTruthyO, jsTruthy, ht]
  · simp [simplifySchema, jdepth, jodepth, simplifySchemaGo, JObj.lookup, JObj.length,
      jsTruthyO, jsTruthy, ht, hf, jsToString]

/-- C6 witness: the spec examples, a bare integer type and an integer with
format int64, compact to their strings and are fixed points of a second
compaction. -/
theorem c6_compaction_witness :
    simplifySchema (.obj (.cons "type" (.str "integer") .nil)) = .str "integer" ∧
    simplifySchema (.str "integer") = .str "integer" ∧
    simplifySchema (.obj (.cons "type" (.str "integer") (.cons "format" (.str "int64") .nil))) =
      .str ("integer" ++ "(" ++ "int64" ++ ")") ∧
    simplifySchema (.str ("integer" ++ "(" ++ "int64" ++ ")")) =
      .str ("integer" ++ "(" ++ "int64" ++ ")") :=
  c6_compaction_amended "integer" "int64" (by decide) (by decide)

/-! Whitespace characterisation of the trim used by the pipeline guard. -/

lemma trimList_eq_nil_iff (l : List Char) : trimList l = [] ↔ ∀ c ∈ l, isWs c := by
  constructor
  · intro h c hc
    rw [trimList, List.reverse_eq_nil_iff, List.dropWhile_eq_nil_iff] at h
    rcases (List.takeWhile_append_dropWhile (p := isWs) (l := l)) ▸ hc |> List.mem_append.mp with
      hta | hd
    · exact List.mem_takeWhile_imp hta
    · exact h c (List.mem_reverse.mpr hd)
  · intro h
    rw [trimList, List.dropWhile_eq_nil_iff.mpr h]
    rfl

lemma jsTrim_eq_empty_iff (s : String) : jsTrim s = "" ↔ ∀ c ∈ s.data, isWs c := by
  rw [jsTrim, String.ext_iff]
  exact trimList_eq_nil_iff s.data

/-- C8: on empty or whitespace-only input the pipeline clears both the
output and the error, whatever the parsers and the loaded state of the
YAML parser are. -/
theorem c8_blank_input (jsonParse yamlLoad : String → Except String JValue) (yamlLoaded : Bool)
    (input : String) (prev : UIState) (h : ∀ c ∈ input.data, isWs c) :
    processSpec jsonParse yamlLoad yamlLoaded input prev = ⟨"", ""⟩ := by
  have ht : jsTrim input = "" := (jsTrim_eq_empty_iff input).mpr h
  simp [processSpec, ht]

/-- C8 witness: whitespace-only input with the YAML parser not loaded and a
stale previous state yields the cleared empty state. -/
theorem c8_blank_input_witness :
    processSpec (fun _ => .error "x") (fun _ => .error "y") false " \n\t " ⟨"stale", "old"⟩ =
      ⟨"", ""⟩ :=
  c8_blank_input _ _ _ _ _ (by decide)

/-- C9: when the YAML parser is loaded and rejects the input that the
strict parse also rejected (the YAML parser accepts every blank string, so
such an input is necessarily non-blank), the pipeline reports the
format-error message, which is non-empty, and clears the output. -/
theorem c9_format_error (jsonParse yamlLoad : String → Except String JValue)
    (input : String) (prev : UIState) (m1 m2 : String)
    (hj : jsonParse input = .error m1) (hy : yamlLoad input = .error m2)
    (hws : ∀ s : String, (∀ c ∈ s.data, isWs c) → ∃ v, yamlLoad s = Except.ok v) :
    processSpec jsonParse yamlLoad true input prev =
      ⟨"", "Error processing spec: " ++ ("Invalid JSON or YAML format: " ++ m2)⟩ ∧
    "Error processing spec: " ++ ("Invalid JSON or YAML format: " ++ m2) ≠ "" := by
  have hnb : ¬(jsTrim input = "") := by
    intro h
    rcases hws input ((jsTrim_eq_empty_iff input).mp h) with ⟨v, hv⟩
    rw [hy] at hv
    exact Except.noConfusion hv
  constructor
  · simp [processSpec, hnb, parseSpec, hj, hy, ParseError.message]
  · intro h
    have hl := congrArg String.length h
    rw [String.length_append, String.length_append] at hl
    have h1 : ("Error processing spec: " : String).length = 23 := rfl
    have h2 : ("Invalid JSON or YAML format: " : String).length = 29 := rfl
    have h3 : ("" : String).length = 0 := rfl
    omega

def c9jsonParse : String → Except String JValue := fun _ => .error "Unexpected token"

/-- Model YAML parser accepting blank documents and rejecting the rest. -/
def c9yamlLoad : String → Except String JValue := fun s =>
  if s.data.all isWs then .ok .null else .error "bad indentation"

/-- C9 witness: a concrete non-parseable input yields the cleared output
and the non-empty wrapped format-error message. -/
theorem c9_format_error_witness :
    processSpec c9jsonParse c9yamlLoad true "%%%" ⟨"a", "b"⟩ =
      ⟨"", "Error processing spec: " ++ ("Invalid JSON or YAML format: " ++ "bad indentation")⟩ ∧
    "Error processing spec: " ++ ("Invalid JSON or YAML format: " ++ "bad indentation") ≠ "" :=
  c9_format_error _ _ _ _ _ _ rfl rfl
    (fun s h => ⟨JValue.null, by unfold c9yamlLoad; rw [if_pos (List.all_eq_true.mpr h)]⟩)

/-- Strict parser accepting exactly the empty-object text, as JSON.parse
does on that input. -/
def c1jsonParse : String → Except String JValue := fun s =>
  if s == "\x7b\x7d" then .ok (.obj .nil) else .error "Unexpected token"

def c1yamlLoad : String → Except String JValue := fun _ => .error "unused"

/-- C1 counterexample: the empty-object text is accepted by the strict
parser, yet with the YAML parser not loaded the pipeline stops with the
parser-unavailable message instead of producing compact output, because
processSpec checks the YAML parser before attempting any parse; so the
parser-unavailable condition is not restricted to inputs whose strict
parse failed. -/
theorem c1_parser_unavailable_counterexample :
    c1jsonParse "\x7b\x7d" = .ok (.obj .nil) ∧
    processSpec c1jsonParse c1yamlLoad false "\x7b\x7d" ⟨"", ""⟩ =
      ⟨"", "YAML parser not loaded yet, please wait..."⟩ :=
  ⟨rfl, rfl⟩

/-- C1 amended: with the YAML parser not loaded, every non-blank input,
including strictly-parseable ones, fails with the parser-unavailable
message and leaves the previous output untouched; only inside parseSpec
itself does the parser-unavailable condition require a failed strict
parse, since a strictly-parseable text returns before the YAML branch. -/
theorem c1_parser_unavailable_amended :
    (∀ (jp yl : String → Except String JValue) (input : String) (prev : UIState),
        jsTrim input ≠ "" →
        processSpec jp yl false input prev =
          ⟨prev.output, "YAML parser not loaded yet, please wait..."⟩) ∧
    (∀ (jp yl : String → Except String JValue) (loaded : Bool) (text : String) (v : JValue),
        jp text = .ok v → parseSpec jp yl loaded text = .ok v) := by
  constructor
  · intro jp yl input prev h
    simp [processSpec, h]
  · intro jp yl loaded text v hj
    simp [parseSpec, hj]

/-- C1 witness: a concrete non-blank input under a missing parser keeps the
previous output and reports the parser-unavailable message, and a
strictly-parseable text parses regardless of the YAML parser. -/
theorem c1_parser_unavailable_witness :
    processSpec c1jsonParse c1yamlLoad false "x" ⟨"out", ""⟩ =
      ⟨"out", "YAML parser not loaded yet, please wait..."⟩ ∧
    parseSpec c1jsonParse c1yamlLoad true "\x7b\x7d" = .ok (.obj .nil) :=
  ⟨c1_parser_unavailable_amended.1 _ _ _ _ (by decide),
   c1_parser_unavailable_amended.2 _ _ _ _ _ rfl⟩

/-! Evaluation lemmas for the Except monad of the embedding. -/

@[simp] lemma except_bind_ok {e a b : Type} (x : a) (f : a → Except e b) :
    Bind.bind (Except.ok x : Except e a) f = f x := rfl

@[simp] lemma except_bind_error {e a b : Type} (m : e) (f : a → Except e b) :
    Bind.bind (Except.error m : Except e a) f = (Except.error m : Except e b) := rfl

@[simp] lemma except_pure_def {e a : Type} (x : a) : (pure x : Except e a) = Except.ok x := rfl

@[simp] lemma except_map_ok {e a b : Type} (f : a → b) (x : a) :
    (Except.ok x : Except e a).map f = Except.ok (f x) := rfl

@[simp] lemma except_map_error {e a b : Type} (f : a → b) (m : e) :
    (Except.error m : Except e a).map f = (Except.error m : Except e b) := rfl

lemma mem_collapseCore {c : Char} : ∀ (b : Bool) (l : List Char), c ∈ collapseCore b l → c = ' ' ∨ c ∈ l := by
  intro b l
  induction l generalizing b with
  | nil => intro h; simp [collapseCore] at h
  | cons a rest ih =>
      intro h
      rw [collapseCore] at h
      split at h
      · split at h
        · rcases ih true h with h1 | h1
          · exact Or.inl h1
          · exact Or.inr (List.mem_cons_of_mem _ h1)
        · rcases List.mem_cons.mp h with h1 | h1
          · exact Or.inl h1
          · rcases ih true h1 with h2 | h2
            · exact Or.inl h2
            · exact Or.inr (List.mem_cons_of_mem _ h2)
      · rcases List.mem_cons.mp h with h1 | h1
        · exact Or.inr (h1 ▸ List.mem_cons_self a rest)
        · rcases ih false h1 with h2 | h2
          · exact Or.inl h2
          · exact Or.inr (List.mem_cons_of_mem _ h2)

/-- C10: when an operation carries a non-empty whitespace-only summary, the
truthy summary is selected over any description, whitespace collapsing
reduces it to the empty string, and the falsy empty string suppresses the
desc field of the emitted descriptor. -/
theorem c10_ws_summary (path method : String) (op : JValue) (s : String) (e : Endpoint)
    (hs : jsField op "summary" = some (.str s)) (hne : s ≠ "") (hws : ∀ c ∈ s.data, isWs c)
    (hb : buildEndpoint path method op = .ok e) :
    e.desc = none := by
  obtain ⟨fs, rfl⟩ : ∃ fs, op = .obj fs := by
    cases op with
    | obj fs => exact ⟨fs, rfl⟩
    | null => simp [jsField] at hs
    | bool b => simp [jsField] at hs
    | num n => simp [jsField] at hs
    | str t => rw [jsField, show jsIndexOfKey "summary" = none from rfl] at hs; simp at hs
    | arr xs => rw [jsField, show jsIndexOfKey "summary" = none from rfl] at hs; simp at hs
  have hcl : jsTrim (collapseWs s) = "" := by
    rw [jsTrim_eq_empty_iff]
    intro c hc
    rcases mem_collapseCore false s.data hc with h1 | h1
    · subst h1; decide
    · exact hws c h1
  have hd : buildDesc (.obj fs) = .ok none := by
    simp [buildDesc, jsAccess, hs, jsTruthyO, jsTruthy, hne, truncateDescription_str s hne, hcl]
  rw [buildEndpoint] at hb
  rw [hd] at hb
  cases hr : buildEndpointRest (.obj fs) with
  | error m => rw [hr] at hb; exact Except.noConfusion hb
  | ok r =>
      rw [hr] at hb
      rcases Except.ok.inj hb with rfl
      rfl

/-- Operation with a whitespace-only summary and a real description. -/
def c10op : JValue := jobj [("summary", .str " \n "), ("description", .str "Real text")]

/-- Descriptor the extractor emits for that operation. -/
def c10endpoint : Endpoint :=
  match buildEndpoint "/x" "get" c10op with
  | .ok e => e
  | .error _ => default

/-- C10 witness: the concrete whitespace-summary operation produces a
descriptor without a desc field even though its description is non-empty. -/
theorem c10_ws_summary_witness : c10endpoint.desc = none :=
  c10_ws_summary "/x" "get" c10op " \n " c10endpoint rfl (by decide) (by decide) rfl

/-- Document whose paths subtree references a schema name that has no entry
under components.schemas. -/
def c3spec : JValue :=
  jobj [("paths", jobj [("/a", jobj [("x", jobj [("$ref", .str "#/components/schemas/Ghost")])])])]

/-- C3 counterexample: the collector adds every internal-looking reference
found under paths without checking components.schemas, so the collected
name Ghost is not a key of the (absent) components.schemas mapping and the
reference set is not a subset of those keys. -/
theorem c3_collector_counterexample :
    "Ghost" ∈ collectRefs c3spec ∧ "Ghost" ∉ componentsSchemaKeys c3spec := by decide

lemma mem_addUnique {n m : String} {acc : List String} (h : n ∈ addUnique acc m) :
    n ∈ acc ∨ n = m := by
  unfold addUnique at h
  split at h
  · exact Or.inl h
  · rcases List.mem_append.mp h with h1 | h1
    · exact Or.inl h1
    · exact Or.inr (List.mem_singleton.mp h1)

/-- C3 amended: every name in the reference set either was discovered by
the walk of the paths subtree, with no guarantee of an entry under
components.schemas, or is one of the four seed names and then its entry in
components.schemas is truthy and in particular present. -/
theorem c3_collector_amended (spec : JValue) (n : String) (h : n ∈ collectRefs spec) :
    n ∈ walkedRefs spec ∨ (n ∈ seedSchemas ∧ seedPresent spec n = true) := by
  suffices H : ∀ (seeds init : List String),
      n ∈ seeds.foldl (fun a m => if seedPresent spec m then addUnique a m else a) init →
      n ∈ init ∨ (n ∈ seeds ∧ seedPresent spec n = true) from
    H seedSchemas (walkedRefs spec) h
  intro seeds
  induction seeds with
  | nil => intro init h0; exact Or.inl h0
  | cons s rest ih =>
      intro init h0
      rw [List.foldl_cons] at h0
      rcases ih _ h0 with h1 | h1
      · by_cases hc : seedPresent spec s = true
        · rw [if_pos hc] at h1
          rcases mem_addUnique h1 with h2 | h2
          · exact Or.inl h2
          · subst h2; exact Or.inr ⟨List.mem_cons_self _ _, hc⟩
        · rw [if_neg hc] at h1; exact Or.inl h1
      · exact Or.inr ⟨List.mem_cons_of_mem _ h1.1, h1.2⟩

/-- C3 witness: the scenario reference Pets is classified by the amended
theorem as a walked reference or a present seed. -/
theorem c3_collector_witness :
    "Pets" ∈ walkedRefs petstoreScenario ∨
      ("Pets" ∈ seedSchemas ∧ seedPresent petstoreScenario "Pets" = true) :=
  c3_collector_amended petstoreScenario "Pets" (by decide)

/-- Evaluation of simplifySpecCore on a successful run: the endpoint list
comes from extracting over a truthy paths value and the schemas field is
governed by the guard over the collected references and a truthy
components.schemas. -/
lemma simplifySpecCore_ok (spec : JValue) (s : Simplified) (h : simplifySpecCore spec = .ok s) :
    ∃ eps,
      (if jsTruthyO (jsField spec "paths") then
         extractPaths (jsEntries ((jsField spec "paths").getD .null))
       else pure []) = .ok eps ∧
      s.endpoints = eps ∧
      s.schemas = (if (collectRefs spec).length != 0 &&
            jsTruthyO (jsOptChain (jsField spec "components") "schemas") then
          some (buildSchemas ((jsOptChain (jsField spec "components") "schemas").getD .null)
            (collectRefs spec))
        else none) := by
  simp only [simplifySpecCore] at h
  by_cases hp : jsTruthyO (jsField spec "paths") = true
  · rw [if_pos hp] at h
    cases hE : extractPaths (jsEntries ((jsField spec "paths").getD .null)) with
    | error m => rw [hE] at h; simp at h
    | ok eps =>
        rw [hE] at h
        simp only [except_bind_ok, except_pure_def] at h
        have hs := (Except.ok.inj h).symm
        refine ⟨eps, (if_pos hp).trans rfl, ?_, ?_⟩
        · rw [hs]
        · rw [hs]
  · rw [if_neg hp] at h
    simp only [except_pure_def, except_bind_ok] at h
    have hs := (Except.ok.inj h).symm
    refine ⟨[], (if_neg hp).trans rfl, ?_, ?_⟩
    · rw [hs]
    · rw [hs]

lemma buildSchemas_keys (csv : JValue) (l : List String) :
    (buildSchemas csv l).map Prod.fst = l.filter (fun n => jsTruthyO (jsField csv n)) := by
  induction l with
  | nil => rfl
  | cons n rest ih =>
      cases hv : jsField csv n with
      | none => simp [buildSchemas, hv, jsTruthyO, List.filter_cons, ih]
      | some v =>
          by_cases ht : jsTruthy v = true
          · simp [buildSchemas, hv, jsTruthyO, ht, List.filter_cons, ih]
          · simp [buildSchemas, hv, jsTruthyO, ht, List.filter_cons, ih]

lemma falsy_optchain (cs : Option JValue) (n : String) (h : jsTruthyO cs = false) :
    jsOptChain cs n = none := by
  cases cs with
  | none => rfl
  | some v =>
      cases v with
      | null => rfl
      | bool b => simp [jsOptChain, jsField]
      | num m => simp [jsOptChain, jsField]
      | str t =>
          simp [jsTruthyO, jsTruthy] at h
          subst h
          cases hk : jsIndexOfKey n <;> simp [jsOptChain, jsField, hk]
      | arr xs => simp [jsTruthyO, jsTruthy] at h
      | obj fs => simp [jsTruthyO, jsTruthy] at h

lemma simplifySpec_ok_core (spec : JValue) (s : Simplified) (h : simplifySpec spec = .ok s) :
    simplifySpecCore spec = .ok s := by
  cases spec with
  | null => exact absurd h (by simp [simplifySpec])
  | bool b => exact h
  | num n => exact h
  | str t => exact h
  | arr xs => exact h
  | obj fs => exact h

/-- Document referencing a schema whose components.schemas entry exists but
is null, hence falsy. -/
def c5spec : JValue := jobj [
  ("paths", jobj [("/a", jobj [("x", jobj [("$ref", .str "#/components/schemas/Pets")])])]),
  ("components", jobj [("schemas", jobj [("Pets", .null)])])]

/-- C5 counterexample: the name Pets is referenced and has a matching entry
(a key) in components.schemas, but the entry value null is falsy, so the
truthiness test of line 234 skips it and the output schemas map is empty;
a referenced name with a matching entry is thus absent from the output. -/
theorem c5_schemas_counterexample :
    simplifySpec c5spec = .ok ⟨none, none, [], some []⟩ ∧
    "Pets" ∈ collectRefs c5spec ∧
    "Pets" ∈ componentsSchemaKeys c5spec ∧
    "Pets" ∉ schemasKeys ⟨none, none, [], some []⟩ :=
  ⟨rfl, by decide, by decide, by decide⟩

/-- C5 amended: on every successful run, every key of the output schemas
map is a member of the reference set, and every referenced name whose
entry under components.schemas is truthy (rather than merely present)
appears as a key of the output schemas map. -/
theorem c5_schemas_amended (spec : JValue) (s : Simplified) (h : simplifySpec spec = .ok s) :
    (∀ n ∈ schemasKeys s, n ∈ collectRefs spec) ∧
    (∀ n ∈ collectRefs spec,
        jsTruthyO (jsOptChain (jsOptChain (jsField spec "components") "schemas") n) = true →
        n ∈ schemasKeys s) := by
  obtain ⟨eps, hE, hEps, hSch⟩ := simplifySpecCore_ok spec s (simplifySpec_ok_core spec s h)
  by_cases hg : ((collectRefs spec).length != 0 &&
      jsTruthyO (jsOptChain (jsField spec "components") "schemas")) = true
  · rw [if_pos hg] at hSch
    constructor
    · intro n hn
      simp only [schemasKeys, hSch] at hn
      rw [buildSchemas_keys] at hn
      exact List.mem_of_mem_filter hn
    · intro n hn ht
      simp only [schemasKeys, hSch]
      rw [buildSchemas_keys]
      rcases Bool.and_eq_true_iff.mp hg with ⟨h1, h2⟩
      have hchain : jsOptChain (jsOptChain (jsField spec "components") "schemas") n =
          jsField ((jsOptChain (jsField spec "components") "schemas").getD .null) n := by
        cases hcs : jsOptChain (jsField spec "components") "schemas" with
        | none => rw [hcs] at h2; simp [jsTruthyO] at h2
        | some v =>
            cases v with
            | null => rw [hcs] at h2; simp [jsTruthyO, jsTruthy] at h2
            | bool b => rfl
            | num m => rfl
            | str t => rfl
            | arr xs => rfl
            | obj fs => rfl
      rw [hchain] at ht
      exact List.mem_filter.mpr ⟨hn, ht⟩
  · rw [if_neg hg] at hSch
    constructor
    · intro n hn
      simp only [schemasKeys, hSch] at hn
      exact absurd hn (List.not_mem_nil n)
    · intro n hn ht
      rcases Bool.and_eq_false_iff.mp (Bool.eq_false_iff.mpr hg) with h1 | h1
      · have : collectRefs spec = [] := by
          cases hc : collectRefs spec with
          | nil => rfl
          | cons a rest => rw [hc] at h1; simp at h1
        rw [this] at hn
        exact absurd hn (List.not_mem_nil n)
      · rw [falsy_optchain _ n h1] at ht
        simp [jsTruthyO] at ht

/-- C5 witness: on the scenario document, the amended theorem places Pets
in the output schemas map and back in the reference set. -/
theorem c5_schemas_witness :
    "Pets" ∈ schemasKeys petstoreExpected ∧ "Pets" ∈ collectRefs petstoreScenario :=
  ⟨(c5_schemas_amended petstoreScenario petstoreExpected rfl).2 "Pets" (by decide) (by decide),
   (c5_schemas_amended petstoreScenario petstoreExpected rfl).1 "Pets" (by decide)⟩

/-- Specification-side description of the (path, method) pairs present in
the source document: for each path entry whose item enumerates without
error, the child keys that are exactly one of the recognized methods, in
document order. -/
def sourceMethodPairs : List (String × JValue) → List (String × String)
  | [] => []
  | (path, item) :: rest =>
      (match jsEntriesE item with
       | .ok ents => (ents.filter (fun en => httpMethods.contains en.1)).map (fun en => (path, en.1))
       | .error _ => []) ++ sourceMethodPairs rest

/-- Entries of the paths mapping iterated by the extractor (empty when
paths is absent or falsy). -/
def pathEntries (spec : JValue) : List (String × JValue) :=
  match jsField spec "paths" with
  | some p => if jsTruthy p then jsEntries p else []
  | none => []

lemma buildEndpoint_fields {path method : String} {op : JValue} {e : Endpoint}
    (h : buildEndpoint path method op = .ok e) : e.p = path ∧ e.m = jsToLower method := by
  rw [buildEndpoint] at h
  cases hd : buildDesc op with
  | error m => rw [hd] at h; exact Except.noConfusion h
  | ok d =>
      rw [hd] at h
      cases hr : buildEndpointRest op with
      | error m => rw [hr] at h; exact Except.noConfusion h
      | ok r =>
          rw [hr] at h
          rcases Except.ok.inj h with rfl
          exact ⟨rfl, rfl⟩

lemma toLower_of_method {m : String} (hc : httpMethods.contains m = true) : jsToLower m = m := by
  have hm : m ∈ httpMethods := by simpa using hc
  fin_cases hm <;> rfl

lemma extractOps_pairs (path : String) :
    ∀ (ents : List (String × JValue)) (es1 : List Endpoint), extractOps path ents = .ok es1 →
      es1.map (fun e => (e.p, e.m)) =
        (ents.filter (fun en => httpMethods.contains en.1)).map (fun en => (path, en.1)) := by
  intro ents
  induction ents with
  | nil =>
      intro es1 h
      rcases Except.ok.inj h with rfl
      rfl
  | cons me rest ih =>
      intro es1 h
      rcases me with ⟨method, op⟩
      rw [extractOps] at h
      by_cases hc : httpMethods.contains method = true
      · rw [if_pos hc] at h
        cases hbe : buildEndpoint path method op with
        | error m => rw [hbe] at h; simp at h
        | ok e =>
            rw [hbe] at h
            cases hre : extractOps path rest with
            | error m => rw [hre] at h; simp at h
            | ok tail =>
                rw [hre] at h
                simp only [except_bind_ok, except_pure_def] at h
                rcases Except.ok.inj h with rfl
                rcases buildEndpoint_fields hbe with ⟨hp1, hm1⟩
                rw [List.filter_cons, if_pos hc, List.map_cons, List.map_cons, ih tail hre,
                  hp1, hm1, toLower_of_method hc]
      · rw [if_neg hc] at h
        rw [List.filter_cons, if_neg hc]
        exact ih es1 h

lemma jsEntriesE_ok {v : JValue} {l : List (String × JValue)} (h : jsEntriesE v = .ok l) :
    l = jsEntries v := by
  cases v with
  | null => exact Except.noConfusion h
  | bool b => exact (Except.ok.inj h).symm
  | num n => exact (Except.ok.inj h).symm
  | str t => exact (Except.ok.inj h).symm
  | arr xs => exact (Except.ok.inj h).symm
  | obj fs => exact (Except.ok.inj h).symm

lemma extractPaths_pairs :
    ∀ (l : List (String × JValue)) (es : List Endpoint), extractPaths l = .ok es →
      es.map (fun e => (e.p, e.m)) = sourceMethodPairs l := by
  intro l
  induction l with
  | nil =>
      intro es h
      rcases Except.ok.inj h with rfl
      rfl
  | cons pi rest ih =>
      intro es h
      rcases pi with ⟨path, item⟩
      rw [extractPaths] at h
      cases hE : jsEntriesE item with
      | error m => rw [hE] at h; simp at h
      | ok ents =>
          rw [hE] at h
          simp only [except_bind_ok] at h
          cases h1 : extractOps path ents with
          | error m => rw [h1] at h; simp at h
          | ok es1 =>
              rw [h1] at h
              simp only [except_bind_ok] at h
              cases h2 : extractPaths rest with
              | error m => rw [h2] at h; simp at h
              | ok es2 =>
                  rw [h2] at h
                  simp only [except_bind_ok, except_pure_def] at h
                  rcases Except.ok.inj h with rfl
                  rw [sourceMethodPairs, hE, List.map_append, extractOps_pairs path ents es1 h1,
                    ih es2 h2]

lemma mem_sourceMethodPairs_fst {pr : String × String} :
    ∀ l : List (String × JValue), pr ∈ sourceMethodPairs l → pr.1 ∈ l.map Prod.fst := by
  intro l
  induction l with
  | nil => intro h; simp [sourceMethodPairs] at h
  | cons pi rest ih =>
      intro h
      rcases pi with ⟨path, item⟩
      rw [sourceMethodPairs] at h
      rcases List.mem_append.mp h with h1 | h1
      · cases hE : jsEntriesE item with
        | error m => rw [hE] at h1; simp at h1
        | ok ents =>
            rw [hE] at h1
            rcases List.mem_map.mp h1 with ⟨en, _, rfl⟩
            exact List.mem_cons_self _ _
      · exact List.mem_cons_of_mem _ (ih h1)

lemma nodup_sourceMethodPairs :
    ∀ l : List (String × JValue), (l.map Prod.fst).Nodup →
      (∀ pr ∈ l, ((jsEntries pr.2).map Prod.fst).Nodup) → (sourceMethodPairs l).Nodup := by
  intro l
  induction l with
  | nil => intro _ _; exact List.nodup_nil
  | cons pi rest ih =>
      intro hk hi
      rcases pi with ⟨path, item⟩
      rw [sourceMethodPairs]
      rw [List.map_cons] at hk
      have hkr := (List.nodup_cons.mp hk).2
      have hknot := (List.nodup_cons.mp hk).1
      refine List.Nodup.append ?_ (ih hkr (fun pr hpr => hi pr (List.mem_cons_of_mem _ hpr))) ?_
      · cases hE : jsEntriesE item with
        | error m => exact List.nodup_nil
        | ok ents =>
            have hents : (ents.map Prod.fst).Nodup := by
              rw [jsEntriesE_ok hE]
              exact hi ⟨path, item⟩ (List.mem_cons_self _ _)
            have hfil : ((ents.filter (fun en => httpMethods.contains en.1)).map Prod.fst).Nodup :=
              hents.sublist ((List.filter_sublist ents).map Prod.fst)
            have heq : (ents.filter (fun en => httpMethods.contains en.1)).map (fun en => (path, en.1)) =
                ((ents.filter (fun en => httpMethods.contains en.1)).map Prod.fst).map
                  (fun k => (path, k)) := by
              rw [List.map_map]
              rfl
            show ((ents.filter (fun en => httpMethods.contains en.1)).map
              (fun en => (path, en.1))).Nodup
            rw [heq]
            exact hfil.map (fun a b hab => by simpa using hab)
      · intro x hx hx'
        have hx1 : x.1 = path := by
          cases hE : jsEntriesE item with
          | error m => rw [hE] at hx; exact absurd hx (List.not_mem_nil x)
          | ok ents =>
              rw [hE] at hx
              have hx2 : x ∈ (ents.filter (fun en => httpMethods.contains en.1)).map
                  (fun en => (path, en.1)) := hx
              rcases List.mem_map.mp hx2 with ⟨en, _, rfl⟩
              rfl
        exact hknot (hx1 ▸ mem_sourceMethodPairs_fst rest hx')

lemma truthyO_some {o : Option JValue} (h : jsTruthyO o = true) :
    ∃ v, o = some v ∧ jsTruthy v = true := by
  cases o with
  | none => simp [jsTruthyO] at h
  | some v => exact ⟨v, rfl, h⟩

/-- Document whose only operation key is the uppercase GET. -/
def c2spec : JValue := jobj [("paths", jobj [("/a", jobj [("GET", jobj [])])])]

/-- C2 counterexample: the key GET equals get under case-insensitive
comparison, yet the extractor, whose filter on line 170 compares the raw
key against the lowercase method list before any lowercasing, emits no
descriptor for it: the endpoint list is empty although a recognized
(path, method) pair is present under the case-insensitive reading. -/
theorem c2_method_case_counterexample :
    jsToLower "GET" = "get" ∧
    simplifySpec c2spec = .ok ⟨none, none, [], none⟩ :=
  ⟨rfl, rfl⟩

/-- C2 amended: child keys are matched against the recognized methods by
exact, case-sensitive comparison (the subsequent lowercasing is an
identity on the keys that pass); on every successful run, the emitted
(path, method) pairs are exactly the recognized pairs of the source in
document order, and they are duplicate-free whenever the paths object and
each path item have duplicate-free keys. -/
theorem c2_endpoints_amended (spec : JValue) (s : Simplified) (h : simplifySpec spec = .ok s) :
    s.endpoints.map (fun e => (e.p, e.m)) = sourceMethodPairs (pathEntries spec) ∧
    (((pathEntries spec).map Prod.fst).Nodup →
      (∀ pr ∈ pathEntries spec, ((jsEntries pr.2).map Prod.fst).Nodup) →
      (s.endpoints.map (fun e => (e.p, e.m))).Nodup) := by
  obtain ⟨eps, hE, hEps, _⟩ := simplifySpecCore_ok spec s (simplifySpec_ok_core spec s h)
  by_cases hp : jsTruthyO (jsField spec "paths") = true
  · rw [if_pos hp] at hE
    rcases truthyO_some hp with ⟨p, hpe, hpt⟩
    have hpth : pathEntries spec = jsEntries p := by
      rw [pathEntries, hpe]
      exact if_pos hpt
    have hgetd : (jsField spec "paths").getD .null = p := by rw [hpe]; rfl
    rw [hgetd] at hE
    have h1 : eps.map (fun e => (e.p, e.m)) = sourceMethodPairs (jsEntries p) :=
      extractPaths_pairs _ _ hE
    refine ⟨?_, ?_⟩
    · rw [hEps, hpth]
      exact h1
    · intro hk hi
      rw [hpth] at hk hi
      rw [hEps, h1]
      exact nodup_sourceMethodPairs _ hk hi
  · rw [if_neg hp] at hE
    have heps : eps = [] := (Except.ok.inj hE).symm
    have hpth : pathEntries spec = [] := by
      cases hf : jsField spec "paths" with
      | none => simp [pathEntries, hf]
      | some p =>
          have hft : jsTruthy p = false := by
            rw [hf] at hp
            simpa [jsTruthyO] using hp
          simp [pathEntries, hf, hft]
    refine ⟨?_, ?_⟩
    · rw [hEps, heps, hpth]
      rfl
    · intro _ _
      rw [hEps, heps]
      exact List.nodup_nil

/-- Document with one path carrying a recognized method and an ignored
extension key. -/
def c2wspec : JValue :=
  jobj [("paths", jobj [("/pets", jobj [("get", jobj []), ("x-note", .str "n")])])]

/-- Compact document the engine produces for that input. -/
def c2wOut : Simplified :=
  ⟨none, none, [⟨"get", "/pets", none, none, none, none, none, []⟩], none⟩

/-- C2 witness: on the concrete document, the emitted pairs are exactly the
recognized source pairs and are duplicate-free. -/
theorem c2_endpoints_witness :
    c2wOut.endpoints.map (fun e => (e.p, e.m)) = sourceMethodPairs (pathEntries c2wspec) ∧
    (c2wOut.endpoints.map (fun e => (e.p, e.m))).Nodup :=
  ⟨(c2_endpoints_amended c2wspec c2wOut rfl).1,
   (c2_endpoints_amended c2wspec c2wOut rfl).2 (by decide) (by decide)⟩
